import Mathlib

/-!
Verification of the cookie-store repository's synchronization cache
(`packages/core/src/cookie-store-cache.ts`).

The file embeds the two `CookieStoreCache` implementations found in that
source file: the first variant (immutable-on-write, lines 1-73) in namespace
`CookieStoreCache`, and the second variant (in-place mutation, lines 76-180)
in namespace `CookieStoreCache2`.  Cookies are modelled as name/value pairs
(the cache treats all further metadata opaquely and keys only on `name`); a
missing cookie name is modelled as the empty string, matching JS truthiness
of `!name`.  Object identity of the backing array, which the source relies
on for its stable-reference guarantee, is modelled by a natural-number tag
that changes exactly when the source allocates a fresh array.
-/

/-- One cookie list item: a `name` and a `value`.  The store-defined metadata
(domain, path, expiry, flags) is never inspected by the cache, so it is
folded into `value`.  An item without a usable name is modelled by
`name = ""` (JS `!name` is true for both `undefined` and `""`). -/
structure Cookie where
  name : String
  value : String
deriving DecidableEq

/-- Payload of a cookie `change` event: the `changed` and `deleted` lists. -/
structure CookieChangeEvent where
  changed : List Cookie
  deleted : List Cookie
deriving DecidableEq

namespace CookieStoreCache

/-- Body of one iteration of `event.changed.forEach` in the first variant's
`#handleChange` (source lines 37-44): `findIndex` of the first cookie with
the same name; if found (`index !== -1`) replace it at that index, else
`push` at the end. -/
def upsertCookie (cookies : List Cookie) (changed : Cookie) : List Cookie :=
  match cookies.findIdx? (fun c => c.name == changed.name) with
  | some index => cookies.set index changed
  | none => cookies ++ [changed]

/-- The whole `event.changed.forEach(...)` loop, applied in list order. -/
def applyChanged (cookies : List Cookie) (changedList : List Cookie) : List Cookie :=
  changedList.foldl upsertCookie cookies

/-- The `event.deleted.forEach(...)` loop (source lines 46-48): each deleted
item replaces the accumulator with its `filter` keeping only cookies whose
name differs. -/
def applyDeleted (cookies : List Cookie) (deletedList : List Cookie) : List Cookie :=
  deletedList.foldl (fun acc deleted => acc.filter (fun c => !(c.name == deleted.name))) cookies

/-- First variant `#handleChange` (source lines 34-51), contents view: the
`changed` loop runs fully, then the `deleted` loop. -/
def handleChange (cookies : List Cookie) (event : CookieChangeEvent) : List Cookie :=
  applyDeleted (applyChanged cookies event.changed) event.deleted

/-- Method `get(name)` (source lines 53-55): `find` the first cookie whose
name equals the argument; `?? null` is modelled by `Option`. -/
def get (cookies : List Cookie) (name : String) : Option Cookie :=
  cookies.find? (fun cookie => cookie.name == name)

/-- JS truthiness of the optional `name` argument of `getAll`: `undefined`
(here `none`) and the empty string are falsy. -/
def strTruthy : Option String → Bool
  | none => false
  | some s => !(s == "")

/-- Method `getAll(name?)` (source lines 57-62), contents view: on a truthy
`name`, `filter` by that name; otherwise return the backing array. -/
def getAll (cookies : List Cookie) (name? : Option String) : List Cookie :=
  if strTruthy name? then
    cookies.filter (fun cookie => some cookie.name == name?)
  else
    cookies

/-- Result of `getAll`, with array identity tracked: `stable id data` is the
backing array object itself (identity `id`); `fresh data` is a newly
constructed array. -/
inductive GetAllResult where
  | stable (id : Nat) (data : List Cookie)
  | fresh (data : List Cookie)
deriving DecidableEq

/-- State of a first-variant cache instance: the contents of `#cookies`, the
identity tag of the current backing array object, and whether the change
listener was registered on the external store. -/
structure CacheInstance where
  cookies : List Cookie
  ref : Nat
  listenerRegistered : Bool
deriving DecidableEq

/-- Method `getAll(name?)` (source lines 57-62) with identity: the filter
branch constructs a fresh array, while the unfiltered branch returns
`this.#cookies` itself. -/
def getAllR (st : CacheInstance) (name? : Option String) : GetAllResult :=
  if strTruthy name? then
    .fresh (st.cookies.filter (fun cookie => some cookie.name == name?))
  else
    .stable st.ref st.cookies

/-- Method call `get(name)` in state-passing form: the body contains no
assignment, so the state comes back unchanged next to the result. -/
def getOp (st : CacheInstance) (name : String) : Option Cookie × CacheInstance :=
  (get st.cookies name, st)

/-- Method call `getAll(name?)` in state-passing form: no assignment, state
unchanged. -/
def getAllOp (st : CacheInstance) (name? : Option String) : GetAllResult × CacheInstance :=
  (getAllR st name?, st)

/-- First variant `#handleChange` on the instance: `nextCookies` starts as
`[...this.#cookies]` (a fresh array), is mutated, and is then assigned to
`this.#cookies` unconditionally — the backing array object is always
replaced, so its identity tag changes. -/
def applyHandler (st : CacheInstance) (event : CookieChangeEvent) : CacheInstance :=
  { st with cookies := handleChange st.cookies event, ref := st.ref + 1 }

/-- Delivery of one external-store change event to the instance: the handler
runs only if `addEventListener` was reached during initialization. -/
def deliverEvent (st : CacheInstance) (event : CookieChangeEvent) : CacheInstance :=
  if st.listenerRegistered then applyHandler st event else st

/-- First variant `#initialize` (source lines 15-22), with the asynchronous
bulk fetch modelled by its outcome: on success `#initializeCookies` assigns
a fresh copy of the fetched list; on failure the catch block does nothing; in
both cases `#initializeListeners` then registers the change listener. -/
def initCache (st : CacheInstance) (fetched : Except Unit (List Cookie)) : CacheInstance :=
  match fetched with
  | .ok cookies => { st with cookies := cookies, ref := st.ref + 1, listenerRegistered := true }
  | .error _ => { st with listenerRegistered := true }

/-- First variant constructor (source lines 8-13): in a supported environment
(`window` exists and has `cookieStore`) it runs `#initialize`; otherwise it
does nothing.  It never throws, hence the result is always `.ok`. -/
def construct (supported : Bool) (fetched : Except Unit (List Cookie)) :
    Except String CacheInstance :=
  if supported then
    .ok (initCache { cookies := [], ref := 0, listenerRegistered := false } fetched)
  else
    .ok { cookies := [], ref := 0, listenerRegistered := false }

end CookieStoreCache

namespace CookieStoreCache2

/-- Second variant instance state: the contents of `#cookies` (mutated in
place, so no identity tag is needed), the `#ready` flag, and listener
registration. -/
structure CacheInstance where
  cookies : List Cookie
  ready : Bool
  listenerRegistered : Bool
deriving DecidableEq

/-- Second variant `#handleChange`, one iteration of the changed loop (source
lines 122-132): `if (!changedCookie.name) return;` skips an item with a falsy
name; otherwise replace at the first matching index (`idx >= 0`) or `push`. -/
def upsertCookie (cookies : List Cookie) (changed : Cookie) : List Cookie :=
  if changed.name == "" then cookies
  else
    match cookies.findIdx? (fun c => c.name == changed.name) with
    | some idx => cookies.set idx changed
    | none => cookies ++ [changed]

/-- Second variant `#handleChange`, one iteration of the deleted loop (source
lines 135-142): skip a falsy name; otherwise `splice(idx, 1)` removes the
first matching index only. -/
def deleteCookie (cookies : List Cookie) (deleted : Cookie) : List Cookie :=
  if deleted.name == "" then cookies
  else
    match cookies.findIdx? (fun c => c.name == deleted.name) with
    | some idx => cookies.eraseIdx idx
    | none => cookies

/-- Second variant `#handleChange` (source lines 118-146): changed loop fully,
then deleted loop; the optional-chaining `?.` on absent lists corresponds to
an empty list here. -/
def handleChange (cookies : List Cookie) (event : CookieChangeEvent) : List Cookie :=
  event.deleted.foldl deleteCookie (event.changed.foldl upsertCookie cookies)

/-- Second variant `#initialize` (source lines 95-105): on success copy the
fetched list into the backing array (`#updateCookiesArrayFromList`) and set
`#ready`; on failure log and continue; the `addEventListener` call sits after
the try/catch, so the listener is registered in both cases. -/
def initCache (st : CacheInstance) (fetched : Except Unit (List Cookie)) : CacheInstance :=
  match fetched with
  | .ok cookies => { st with cookies := cookies, ready := true, listenerRegistered := true }
  | .error _ => { st with listenerRegistered := true }

/-- Second variant constructor (source lines 86-93): in a supported
environment run `#initialize`; otherwise `throw new Error('Cookie Store API
not supported')`, modelled as `.error`. -/
def construct (supported : Bool) (fetched : Except Unit (List Cookie)) :
    Except String CacheInstance :=
  if supported then
    .ok (initCache { cookies := [], ready := false, listenerRegistered := false } fetched)
  else
    .error "Cookie Store API not supported"

end CookieStoreCache2

/-- Specification-side model for the refinement claim: the abstract external
store is a name-keyed map from names to items. -/
def AbsStore : Type := String → Option Cookie

/-- Specification-side model: setting a cookie in the abstract store binds its
name to the item. -/
def absSet (m : AbsStore) (c : Cookie) : AbsStore :=
  fun n => if n = c.name then some c else m n

/-- Specification-side model: deleting a name from the abstract store. -/
def absDelete (m : AbsStore) (name : String) : AbsStore :=
  fun n => if n = name then none else m n

/-- One operation on the external store. -/
inductive StoreOp where
  | set (c : Cookie)
  | del (name : String)

/-- Abstract effect of one operation on the abstract store. -/
def applyOp (m : AbsStore) : StoreOp → AbsStore
  | .set c => absSet m c
  | .del n => absDelete m n

/-- Change event the external store emits for one operation: a set reports the
item in `changed`; a delete reports an item carrying that name in `deleted`. -/
def opEvent : StoreOp → CookieChangeEvent
  | .set c => { changed := [c], deleted := [] }
  | .del n => { changed := [], deleted := [{ name := n, value := "" }] }

/-- Mirror contents after the cache processes, in order, the change events of
a sequence of operations, starting from the empty Mirror. -/
def runMirror (ops : List StoreOp) : List Cookie :=
  ops.foldl (fun l op => CookieStoreCache.handleChange l (opEvent op)) []

/-- Abstract store contents after a sequence of operations, starting empty. -/
def runAbs (ops : List StoreOp) : AbsStore :=
  ops.foldl applyOp (fun _ => none)

/-- Names of the cookies of a Mirror state are pairwise distinct. -/
def NodupNames (l : List Cookie) : Prop :=
  (l.map Cookie.name).Nodup

/-- Mirror states of the first variant reachable from construction: the
initial bulk load installs a list whose names are unique (the state at
construction is the case of an empty load), after which any sequence of
change events may be processed. -/
inductive Reachable : List Cookie → Prop where
  | init (initial : List Cookie) (h : NodupNames initial) : Reachable initial
  | step (st : List Cookie) (ev : CookieChangeEvent) : Reachable st →
      Reachable (CookieStoreCache.handleChange st ev)

namespace CookieStoreCache

theorem upsertCookie_nil (c : Cookie) : upsertCookie [] c = [c] := rfl

theorem upsertCookie_cons_hit (x : Cookie) (xs : List Cookie) (c : Cookie)
    (h : x.name = c.name) : upsertCookie (x :: xs) c = c :: xs := by
  have hb : (x.name == c.name) = true := by simp [h]
  simp [upsertCookie, List.findIdx?_cons, hb]

theorem upsertCookie_cons_miss (x : Cookie) (xs : List Cookie) (c : Cookie)
    (h : ¬ x.name = c.name) : upsertCookie (x :: xs) c = x :: upsertCookie xs c := by
  have hb : (x.name == c.name) = false := by simp [h]
  unfold upsertCookie
  rw [List.findIdx?_cons, hb]
  simp only [Bool.false_eq_true, if_false]
  rw [List.findIdx?_succ]
  cases hfi : xs.findIdx? (fun c2 => c2.name == c.name) with
  | none => simp
  | some j => simp [List.set_cons_succ]

theorem get_nil (n : String) : get [] n = none := rfl

theorem get_cons (x : Cookie) (xs : List Cookie) (n : String) :
    get (x :: xs) n = if x.name == n then some x else get xs n := by
  cases h : x.name == n <;> simp [get, List.find?_cons, h]

theorem get_upsert (l : List Cookie) (c : Cookie) (n : String) :
    get (upsertCookie l c) n = if c.name == n then some c else get l n := by
  induction l with
  | nil => rw [upsertCookie_nil, get_cons]
  | cons x xs ih =>
    by_cases hx : x.name = c.name
    · rw [upsertCookie_cons_hit x xs c hx, get_cons, get_cons]
      by_cases hcn : c.name = n
      · simp [hcn]
      · have h2 : ¬ x.name = n := by rw [hx]; exact hcn
        simp [hcn, h2]
    · rw [upsertCookie_cons_miss x xs c hx, get_cons, ih, get_cons]
      by_cases hcn : c.name = n
      · have h2 : ¬ x.name = n := fun hh => hx (hh.trans hcn.symm)
        simp [hcn, h2]
      · simp [hcn]

theorem get_filter_ne (l : List Cookie) (d n : String) :
    get (l.filter (fun c => !(c.name == d))) n = if n == d then none else get l n := by
  induction l with
  | nil => simp [get_nil]
  | cons x xs ih =>
    rw [List.filter_cons]
    by_cases hxd : x.name = d
    · have hb : (!(x.name == d)) = false := by simp [hxd]
      rw [hb]
      simp only [Bool.false_eq_true, if_false]
      rw [ih, get_cons]
      by_cases hnd : n = d
      · simp [hnd]
      · have h2 : ¬ x.name = n := fun hh => hnd (hh.symm.trans hxd)
        simp [hnd, h2]
    · have hb : (!(x.name == d)) = true := by simp [hxd]
      rw [hb]
      simp only [if_true]
      rw [get_cons, get_cons, ih]
      by_cases hnd : n = d
      · have h2 : ¬ x.name = n := fun hh => hxd (hh.trans hnd)
        simp [hnd, h2, hxd]
      · simp [hnd]

theorem get_applyDeleted (ds : List Cookie) (l : List Cookie) (n : String) :
    get (applyDeleted l ds) n
      = if ds.any (fun d => n == d.name) then none else get l n := by
  induction ds generalizing l with
  | nil => simp [applyDeleted]
  | cons d ds ih =>
    have hstep : applyDeleted l (d :: ds)
        = applyDeleted (l.filter (fun c => !(c.name == d.name))) ds := rfl
    rw [hstep, ih, List.any_cons]
    by_cases hnd : n = d.name
    · simp [hnd, get_filter_ne]
    · have hb : (n == d.name) = false := by simp [hnd]
      rw [hb]
      cases hds : ds.any (fun d2 => n == d2.name) with
      | true => simp
      | false => simp [get_filter_ne, hb]

theorem get_applyChanged_of_not_mem (cs : List Cookie) (l : List Cookie) (B : String)
    (h : ∀ c ∈ cs, ¬ c.name = B) : get (applyChanged l cs) B = get l B := by
  induction cs generalizing l with
  | nil => rfl
  | cons c cs ih =>
    have hstep : applyChanged l (c :: cs) = applyChanged (upsertCookie l c) cs := rfl
    rw [hstep, ih _ (fun x hx => h x (List.mem_cons_of_mem c hx)), get_upsert]
    have hc : ¬ c.name = B := h c (List.mem_cons_self c cs)
    simp [hc]

end CookieStoreCache

namespace CookieStoreCache

theorem name_mem_upsert {l : List Cookie} {c : Cookie} {y : String}
    (hy : y ∈ (upsertCookie l c).map Cookie.name) :
    y = c.name ∨ y ∈ l.map Cookie.name := by
  induction l with
  | nil => rw [upsertCookie_nil] at hy; simp at hy; exact Or.inl hy
  | cons x xs ih =>
    by_cases hx : x.name = c.name
    · rw [upsertCookie_cons_hit x xs c hx] at hy
      simp only [List.map_cons, List.mem_cons] at hy ⊢
      rcases hy with hy | hy
      · exact Or.inl hy
      · exact Or.inr (Or.inr hy)
    · rw [upsertCookie_cons_miss x xs c hx] at hy
      simp only [List.map_cons, List.mem_cons] at hy ⊢
      rcases hy with hy | hy
      · exact Or.inr (Or.inl hy)
      · rcases ih hy with h1 | h1
        · exact Or.inl h1
        · exact Or.inr (Or.inr h1)

theorem nodupNames_upsert {l : List Cookie} (c : Cookie) (h : NodupNames l) :
    NodupNames (upsertCookie l c) := by
  induction l with
  | nil => rw [upsertCookie_nil]; simp [NodupNames]
  | cons x xs ih =>
    rw [NodupNames, List.map_cons, List.nodup_cons] at h
    by_cases hx : x.name = c.name
    · rw [NodupNames, upsertCookie_cons_hit x xs c hx, List.map_cons, List.nodup_cons]
      exact ⟨hx ▸ h.1, h.2⟩
    · rw [NodupNames, upsertCookie_cons_miss x xs c hx, List.map_cons, List.nodup_cons]
      refine ⟨fun hmem => ?_, ih h.2⟩
      rcases name_mem_upsert hmem with h1 | h1
      · exact hx h1
      · exact h.1 h1

theorem nodupNames_filter {l : List Cookie} (p : Cookie → Bool) (h : NodupNames l) :
    NodupNames (l.filter p) :=
  List.Nodup.sublist (List.Sublist.map Cookie.name (List.filter_sublist l)) h

theorem nodupNames_applyChanged {l : List Cookie} (cs : List Cookie) (h : NodupNames l) :
    NodupNames (applyChanged l cs) := by
  induction cs generalizing l with
  | nil => exact h
  | cons c cs ih => exact ih (nodupNames_upsert c h)

theorem nodupNames_applyDeleted {l : List Cookie} (ds : List Cookie) (h : NodupNames l) :
    NodupNames (applyDeleted l ds) := by
  induction ds generalizing l with
  | nil => exact h
  | cons d ds ih => exact ih (nodupNames_filter _ h)

theorem nodupNames_handleChange {l : List Cookie} (ev : CookieChangeEvent)
    (h : NodupNames l) : NodupNames (handleChange l ev) :=
  nodupNames_applyDeleted ev.deleted (nodupNames_applyChanged ev.changed h)

theorem mem_iff_get_eq_some {l : List Cookie} (c : Cookie) (h : NodupNames l) :
    c ∈ l ↔ get l c.name = some c := by
  constructor
  · intro hmem
    induction l with
    | nil => cases hmem
    | cons x xs ih =>
      rw [NodupNames, List.map_cons, List.nodup_cons] at h
      rw [get_cons]
      rcases List.mem_cons.mp hmem with hc | hc
      · subst hc; simp
      · have hxc : ¬ x.name = c.name := by
          intro hh
          exact h.1 (hh ▸ List.mem_map_of_mem Cookie.name hc)
        simp only [hxc, beq_iff_eq, if_false]
        exact ih h.2 hc
  · intro hget
    exact List.mem_of_find?_eq_some hget

end CookieStoreCache

theorem mirror_refines_aux (ops : List StoreOp) (l : List Cookie) (m : AbsStore)
    (hg : ∀ n, CookieStoreCache.get l n = m n) (hn : NodupNames l) :
    (∀ n, CookieStoreCache.get
        (ops.foldl (fun l2 op => CookieStoreCache.handleChange l2 (opEvent op)) l) n
      = (ops.foldl applyOp m) n)
    ∧ NodupNames (ops.foldl (fun l2 op => CookieStoreCache.handleChange l2 (opEvent op)) l) := by
  induction ops generalizing l m with
  | nil => exact ⟨hg, hn⟩
  | cons op ops ih =>
    simp only [List.foldl_cons]
    cases op with
    | set c =>
      have hstep : CookieStoreCache.handleChange l (opEvent (StoreOp.set c))
          = CookieStoreCache.upsertCookie l c := rfl
      refine ih _ _ (fun n => ?_) ?_
      · rw [hstep, CookieStoreCache.get_upsert]
        show _ = absSet m c n
        rw [absSet]
        by_cases hcn : c.name = n
        · simp [hcn]
        · have h2 : ¬ n = c.name := fun hh => hcn hh.symm
          simp [hcn, h2, hg n]
      · rw [hstep]; exact CookieStoreCache.nodupNames_upsert c hn
    | del d =>
      have hstep : CookieStoreCache.handleChange l (opEvent (StoreOp.del d))
          = l.filter (fun c => !(c.name == d)) := rfl
      refine ih _ _ (fun n => ?_) ?_
      · rw [hstep]
        have := CookieStoreCache.get_filter_ne l d n
        rw [this]
        show _ = absDelete m d n
        rw [absDelete]
        by_cases hnd : n = d
        · simp [hnd]
        · simp [hnd, hg n]
      · rw [hstep]; exact CookieStoreCache.nodupNames_filter _ hn

namespace CookieStoreCache

theorem applyDeleted_eq_filter (ds : List Cookie) (l : List Cookie) :
    applyDeleted l ds = l.filter (fun c => ds.all (fun d => !(c.name == d.name))) := by
  induction ds generalizing l with
  | nil => simp [applyDeleted]
  | cons d ds ih =>
    have hstep : applyDeleted l (d :: ds)
        = applyDeleted (l.filter (fun c => !(c.name == d.name))) ds := rfl
    rw [hstep, ih, List.filter_filter]
    refine List.filter_congr (fun x _ => ?_)
    simp only [List.all_cons]
    exact Bool.and_comm _ _

theorem upsert_append_of_not_mem (l : List Cookie) (c : Cookie)
    (h : ∀ x ∈ l, ¬ x.name = c.name) : upsertCookie l c = l ++ [c] := by
  induction l with
  | nil => exact upsertCookie_nil c
  | cons x xs ih =>
    rw [upsertCookie_cons_miss x xs c (h x (List.mem_cons_self x xs)),
      ih (fun y hy => h y (List.mem_cons_of_mem x hy))]
    rfl

theorem upsert_set_of_first (l : List Cookie) (c : Cookie) (i : Nat) (x : Cookie)
    (hi : l.get? i = some x) (hx : x.name = c.name)
    (hfirst : ∀ y ∈ l.take i, ¬ y.name = c.name) :
    upsertCookie l c = l.set i c := by
  induction l generalizing i with
  | nil => simp at hi
  | cons z zs ih =>
    cases i with
    | zero =>
      rw [List.get?_cons_zero] at hi
      have hz : z = x := by injection hi
      rw [upsertCookie_cons_hit z zs c (hz ▸ hx), List.set_cons_zero]
    | succ j =>
      have hz : ¬ z.name = c.name := by
        refine hfirst z ?_
        rw [List.take_succ_cons]
        exact List.mem_cons_self z _
      rw [List.get?_cons_succ] at hi
      rw [upsertCookie_cons_miss z zs c hz, List.set_cons_succ]
      have htl : ∀ y ∈ zs.take j, ¬ y.name = c.name := by
        intro y hy
        refine hfirst y ?_
        rw [List.take_succ_cons]
        exact List.mem_cons_of_mem z hy
      rw [ih j hi htl]

end CookieStoreCache

theorem foldl_filter_skip {α : Type} (f : List Cookie → α → List Cookie) (p : α → Bool)
    (hf : ∀ acc x, p x = false → f acc x = acc) :
    ∀ (l : List α) (acc : List Cookie), l.foldl f acc = (l.filter p).foldl f acc := by
  intro l
  induction l with
  | nil => intro acc; rfl
  | cons x xs ih =>
    intro acc
    rw [List.foldl_cons, List.filter_cons]
    cases hp : p x with
    | true => rw [if_pos rfl, List.foldl_cons]; exact ih (f acc x)
    | false =>
      simp only [Bool.false_eq_true, if_false]
      rw [hf acc x hp]
      exact ih acc

theorem foldl_deliverEvent_unregistered (evs : List CookieChangeEvent)
    (st : CookieStoreCache.CacheInstance) (h : st.listenerRegistered = false) :
    evs.foldl CookieStoreCache.deliverEvent st = st := by
  induction evs with
  | nil => rfl
  | cons ev evs ih =>
    rw [List.foldl_cons]
    have hd : CookieStoreCache.deliverEvent st ev = st := by
      rw [CookieStoreCache.deliverEvent, h]
      simp
    rw [hd]
    exact ih

/-- C1: for every sequence of set/delete operations on the external store,
modelled as change events (set as `changed = [item]`, delete as
`deleted = [item]`) applied in order to a Mirror that starts empty, the
unfiltered `getAll()` contains exactly the Items present in the abstract
name-keyed store and `get(name)` returns the Item with that name, or `none`
if there is none: the array-backed Mirror refines the abstract map. -/
theorem claim_C1_mirror_refines_abstract_store (ops : List StoreOp) :
    (∀ c : Cookie,
      c ∈ CookieStoreCache.getAll (runMirror ops) none ↔ runAbs ops c.name = some c)
    ∧ (∀ n : String, CookieStoreCache.get (runMirror ops) n = runAbs ops n) := by
  have h := mirror_refines_aux ops [] (fun _ => none) (fun n => rfl) (by simp [NodupNames])
  have h1 : ∀ n, CookieStoreCache.get (runMirror ops) n = runAbs ops n := h.1
  have h2 : NodupNames (runMirror ops) := h.2
  refine ⟨fun c => ?_, h1⟩
  have hga : CookieStoreCache.getAll (runMirror ops) none = runMirror ops := rfl
  rw [hga, CookieStoreCache.mem_iff_get_eq_some c h2, h1 c.name]

/-- C2: the first variant's change handler applies the `changed` list fully
before the `deleted` list; the `deleted` pass equals one order-preserving
filter over the step-1 result that drops every item bearing a deleted name
(so the remainder is a sublist: gaps close without reordering, and a name in
both lists ends up absent); and a single `changed` item replaces in place at
the first position holding its name, or is appended when the name is absent. -/
theorem claim_C2_handler_algorithm (st : List Cookie) (ev : CookieChangeEvent) :
    CookieStoreCache.handleChange st ev
      = (CookieStoreCache.applyChanged st ev.changed).filter
          (fun c => ev.deleted.all (fun d => !(c.name == d.name)))
    ∧ (CookieStoreCache.handleChange st ev).Sublist
        (CookieStoreCache.applyChanged st ev.changed)
    ∧ (∀ d ∈ ev.deleted,
        CookieStoreCache.get (CookieStoreCache.handleChange st ev) d.name = none)
    ∧ (∀ c : Cookie, (∀ x ∈ st, ¬ x.name = c.name) →
        CookieStoreCache.upsertCookie st c = st ++ [c])
    ∧ (∀ (c x : Cookie) (i : Nat), st.get? i = some x → x.name = c.name →
        (∀ y ∈ st.take i, ¬ y.name = c.name) →
        CookieStoreCache.upsertCookie st c = st.set i c) := by
  refine ⟨CookieStoreCache.applyDeleted_eq_filter ev.deleted _, ?_, ?_,
    fun c h => CookieStoreCache.upsert_append_of_not_mem st c h,
    fun c x i hi hx hf => CookieStoreCache.upsert_set_of_first st c i x hi hx hf⟩
  · rw [CookieStoreCache.handleChange, CookieStoreCache.applyDeleted_eq_filter]
    exact List.filter_sublist _
  · intro d hd
    rw [CookieStoreCache.handleChange, CookieStoreCache.get_applyDeleted]
    have hany : ev.deleted.any (fun d2 => d.name == d2.name) = true :=
      List.any_eq_true.mpr ⟨d, hd, by simp⟩
    rw [hany]
    simp

/-- C2 witness: the theorem applied at a concrete state and event in which
the name "c" occurs in both lists (net effect removed), "a" is deleted, "b"
is replaced in place, and a fresh name is appended. -/
theorem claim_C2_handler_algorithm_witness :
    CookieStoreCache.get
        (CookieStoreCache.handleChange
          [{ name := "a", value := "1" }, { name := "b", value := "2" }]
          { changed := [{ name := "b", value := "9" }, { name := "c", value := "3" }],
            deleted := [{ name := "a", value := "" }, { name := "c", value := "" }] })
        "a" = none
    ∧ CookieStoreCache.upsertCookie
        [{ name := "a", value := "1" }, { name := "b", value := "2" }]
        { name := "z", value := "9" }
      = [{ name := "a", value := "1" }, { name := "b", value := "2" }]
          ++ [{ name := "z", value := "9" }]
    ∧ CookieStoreCache.upsertCookie
        [{ name := "a", value := "1" }, { name := "b", value := "2" }]
        { name := "b", value := "9" }
      = [{ name := "a", value := "1" },
          { name := "b", value := "2" }].set 1 { name := "b", value := "9" } := by
  have h := claim_C2_handler_algorithm
    [{ name := "a", value := "1" }, { name := "b", value := "2" }]
    { changed := [{ name := "b", value := "9" }, { name := "c", value := "3" }],
      deleted := [{ name := "a", value := "" }, { name := "c", value := "" }] }
  exact ⟨h.2.2.1 { name := "a", value := "" } (by decide),
    h.2.2.2.1 { name := "z", value := "9" } (by decide),
    h.2.2.2.2 { name := "b", value := "9" } { name := "b", value := "2" } 1
      (by decide) (by decide) (by decide)⟩

/-- C3: every reachable Mirror state of the first variant — empty at
construction, bulk-loaded from a store with unique names, then transformed
by any change events — holds at most one Item per name, so the unfiltered
`getAll()` never contains two Items with equal names. -/
theorem claim_C3_unique_names (st : List Cookie) (h : Reachable st) :
    ((CookieStoreCache.getAll st none).map Cookie.name).Nodup := by
  suffices hs : NodupNames st from hs
  induction h with
  | init initial hi => exact hi
  | step st2 ev hr ih => exact CookieStoreCache.nodupNames_handleChange ev ih

/-- C3 witness: a bulk load of one cookie followed by a set of the same name
(Scenario B: replace, not duplicate) still has pairwise-distinct names. -/
theorem claim_C3_unique_names_witness :
    ((CookieStoreCache.getAll
        (CookieStoreCache.handleChange [{ name := "a", value := "1" }]
          { changed := [{ name := "a", value := "2" }], deleted := [] })
        none).map Cookie.name).Nodup :=
  claim_C3_unique_names _
    (Reachable.step _ _
      (Reachable.init [{ name := "a", value := "1" }] (by unfold NodupNames; decide)))

/-- C4: reads are idempotent and mutation-free — `get` and `getAll` return
the state unchanged, so repeated calls with no intervening change event give
equal results, and the unfiltered `getAll` yields the very same backing
array object (`stable`, with the state's identity tag) on every such call. -/
theorem claim_C4_read_idempotent (st : CookieStoreCache.CacheInstance)
    (name : String) (q : Option String) :
    (CookieStoreCache.getOp st name).2 = st
    ∧ (CookieStoreCache.getOp ((CookieStoreCache.getOp st name).2) name).1
        = (CookieStoreCache.getOp st name).1
    ∧ (CookieStoreCache.getAllOp st q).2 = st
    ∧ (CookieStoreCache.getAllOp ((CookieStoreCache.getAllOp st q).2) q).1
        = (CookieStoreCache.getAllOp st q).1
    ∧ (CookieStoreCache.getAllOp st none).1
        = CookieStoreCache.GetAllResult.stable st.ref st.cookies :=
  ⟨rfl, rfl, rfl, rfl, rfl⟩

/-- C5 counterexample: the first variant's `#handleChange` (source lines
34-51) performs no name check, so an event whose `changed` list holds an
Item without a usable name makes the Mirror gain an entry for it — the
claim that processing skips such an Item fails on this handler. -/
theorem claim_C5_counterexample :
    CookieStoreCache.handleChange []
      { changed := [{ name := "", value := "x" }], deleted := [] } ≠ [] := by
  decide

/-- C5 amended: only the second variant's `#handleChange` (source lines
118-146) skips an Item without a usable name, in `changed` or in `deleted`:
processing an event equals processing the event with its malformed Items
dropped, so the Mirror gains no entry for them and loses none because of
them, every well-formed Item is applied normally, and the handler (a total
function) raises no error.  The first variant (lines 34-51) instead applies
a nameless Item like any other. -/
theorem claim_C5_amended_malformed_skipped (st : List Cookie) (ev : CookieChangeEvent) :
    CookieStoreCache2.handleChange st ev
      = CookieStoreCache2.handleChange st
          { changed := ev.changed.filter (fun c => !(c.name == "")),
            deleted := ev.deleted.filter (fun d => !(d.name == "")) } := by
  rw [CookieStoreCache2.handleChange, CookieStoreCache2.handleChange]
  have hu : ∀ (acc : List Cookie) (x : Cookie), (!(x.name == "")) = false →
      CookieStoreCache2.upsertCookie acc x = acc := by
    intro acc x hx
    have hx2 : (x.name == "") = true := by simpa using hx
    rw [CookieStoreCache2.upsertCookie, hx2]
    simp
  have hd : ∀ (acc : List Cookie) (x : Cookie), (!(x.name == "")) = false →
      CookieStoreCache2.deleteCookie acc x = acc := by
    intro acc x hx
    have hx2 : (x.name == "") = true := by simpa using hx
    rw [CookieStoreCache2.deleteCookie, hx2]
    simp
  rw [← foldl_filter_skip _ _ hu, ← foldl_filter_skip _ _ hd]

/-- C6: divergence in the unsupported environment.  The first variant's
constructor returns normally with an empty, listener-less instance whose
reads return `none` and `[]` forever; the second variant's constructor
(source lines 86-93) instead throws `Error('Cookie Store API not
supported')`, contradicting the claim (and the repository's SPEC.md, which
prescribes graceful degradation without throwing). -/
theorem claim_C6_unsupported_environment :
    (∀ fetched, CookieStoreCache2.construct false fetched
        = Except.error "Cookie Store API not supported")
    ∧ (∀ fetched, CookieStoreCache.construct false fetched
        = Except.ok { cookies := [], ref := 0, listenerRegistered := false })
    ∧ (∀ (evs : List CookieChangeEvent) (n : String) (q : Option String),
        CookieStoreCache.get
            (evs.foldl CookieStoreCache.deliverEvent
              { cookies := [], ref := 0, listenerRegistered := false }).cookies n = none
        ∧ CookieStoreCache.getAll
            (evs.foldl CookieStoreCache.deliverEvent
              { cookies := [], ref := 0, listenerRegistered := false }).cookies q = []) := by
  refine ⟨fun fetched => rfl, fun fetched => rfl, fun evs n q => ?_⟩
  rw [foldl_deliverEvent_unregistered evs _ rfl]
  refine ⟨rfl, ?_⟩
  rw [CookieStoreCache.getAll]
  cases CookieStoreCache.strTruthy q <;> simp

/-- C7: frame property — a change event whose `changed` and `deleted` lists
mention only names different from `B` leaves `get(B)` unchanged. -/
theorem claim_C7_isolation (st : List Cookie) (ev : CookieChangeEvent) (B : String)
    (h1 : ∀ c ∈ ev.changed, ¬ c.name = B) (h2 : ∀ d ∈ ev.deleted, ¬ d.name = B) :
    CookieStoreCache.get (CookieStoreCache.handleChange st ev) B
      = CookieStoreCache.get st B := by
  rw [CookieStoreCache.handleChange, CookieStoreCache.get_applyDeleted]
  have hany : ev.deleted.any (fun d => B == d.name) = false := by
    cases hb : ev.deleted.any (fun d => B == d.name) with
    | false => rfl
    | true =>
      rcases List.any_eq_true.mp hb with ⟨d, hdmem, hb2⟩
      have hBd : B = d.name := by simpa using hb2
      exact absurd hBd.symm (h2 d hdmem)
  rw [hany]
  simp only [Bool.false_eq_true, if_false]
  exact CookieStoreCache.get_applyChanged_of_not_mem ev.changed st B h1

/-- C7 witness: an event touching only the names "a" and "c" leaves
`get("b")` unchanged. -/
theorem claim_C7_isolation_witness :
    CookieStoreCache.get
        (CookieStoreCache.handleChange [{ name := "b", value := "2" }]
          { changed := [{ name := "a", value := "1" }],
            deleted := [{ name := "c", value := "" }] }) "b"
      = CookieStoreCache.get [{ name := "b", value := "2" }] "b" :=
  claim_C7_isolation _ _ "b" (by decide) (by decide)

/-- C8: bulk-load failure atomicity, both `#initialize` variants: a failed
fetch propagates no error (the function returns normally and the
constructor yields `.ok`), leaves the Mirror exactly as it was, and still
registers the change listener, so a subsequent event runs the handler
normally. -/
theorem claim_C8_bulk_load_failure (st : CookieStoreCache.CacheInstance)
    (st2 : CookieStoreCache2.CacheInstance) (e : Unit) (ev : CookieChangeEvent) :
    CookieStoreCache.initCache st (Except.error e) = { st with listenerRegistered := true }
    ∧ CookieStoreCache.construct true (Except.error e)
        = Except.ok { cookies := [], ref := 0, listenerRegistered := true }
    ∧ CookieStoreCache.deliverEvent { st with listenerRegistered := true } ev
        = CookieStoreCache.applyHandler { st with listenerRegistered := true } ev
    ∧ (CookieStoreCache.deliverEvent
          (CookieStoreCache.initCache
            { cookies := [], ref := 0, listenerRegistered := false }
            (Except.error e)) ev).cookies
        = CookieStoreCache.handleChange [] ev
    ∧ CookieStoreCache2.initCache st2 (Except.error e)
        = { st2 with listenerRegistered := true } :=
  ⟨rfl, rfl, rfl, rfl, rfl⟩

/-- C9: every invocation of the first variant's change handler assigns a
freshly built array to `#cookies` — also when the event changes nothing —
so the unfiltered `getAll()` reference after the event is never the object
returned before it, even when the two arrays have equal contents. -/
theorem claim_C9_reference_always_replaced (st : CookieStoreCache.CacheInstance)
    (ev : CookieChangeEvent) :
    CookieStoreCache.getAllR st none
        = CookieStoreCache.GetAllResult.stable st.ref st.cookies
    ∧ CookieStoreCache.getAllR (CookieStoreCache.applyHandler st ev) none
        = CookieStoreCache.GetAllResult.stable (st.ref + 1)
            (CookieStoreCache.handleChange st.cookies ev)
    ∧ st.ref + 1 ≠ st.ref :=
  ⟨rfl, rfl, Nat.succ_ne_self st.ref⟩

/-- C10: calling `getAll` with the empty string takes the falsy branch of
`if (name)`, so it returns the full unfiltered Mirror — the stable backing
array object — exactly as if no filter had been supplied, rather than the
Items whose name equals `""`. -/
theorem claim_C10_empty_string_filter (st : CookieStoreCache.CacheInstance) :
    CookieStoreCache.getAllR st (some "") = CookieStoreCache.getAllR st none
    ∧ CookieStoreCache.getAllR st (some "")
        = CookieStoreCache.GetAllResult.stable st.ref st.cookies :=
  ⟨rfl, rfl⟩
